import Mathlib

/-!
Verification of the ACL CoreSocket transport layer (src/Sockets/CoreSocket.cpp)
against its natural-language specification.

The embedding models each C++ function as a pure Lean function.  Interactions
with the operating system (socket creation, `setsockopt`, `recv`, `poll`,
`gettimeofday`, `close`) are represented by explicit oracle values passed to
the function: a trace of OS events for the I/O loops, and per-call success
booleans for the option/lifecycle functions.  Machine integers are modelled
as `Nat`/`Int`; 64-bit values carry an explicit `< 2^64` bound.

Time values (`struct timeval`, manipulated through the external `Timer.h`
helpers `TimevalSum`, `TimevalDiff`, `TimevalGreater`) are modelled as
absolute microsecond counts (`Nat`); the helpers are the spec-described
sum, difference and strict comparison of times.
-/

namespace CoreSocket

/-- Sentinel handle value: on POSIX builds `BAD_SOCKET` is the invalid
descriptor `-1` (`socket()` failure value; `connect_tcp_to` tests `*s < 0`). -/
def BAD_SOCKET : Int := -1

/-- Model of `close_socket` (CoreSocket.cpp lines 1203-1209).  The OS-level
`close`/`closesocket` call is abstracted by the oracle `osClose`, which is
consulted only when the handle is not the sentinel. -/
def close_socket (osClose : Int → Int) (sock : Int) : Int :=
  if sock = BAD_SOCKET then -100 else osClose sock

/-! ### Wire-endianness codec (CoreSocket.cpp lines 1341-1439)

The value of an 8-byte scalar on a little-endian host is
`x = Σ mem[i] * 256^i` where `mem` is its memory bytes.  The swap loop
`pchSwapped[i] = pchOrig[8 - i - 1]` therefore produces the value whose
`i`-th byte is the original `(7-i)`-th byte; the ARM mixed-endian fixup
additionally exchanges the two 4-byte words (`new[i] = old[(i+4) % 8]`).
On a big-endian host (`ACL_big_endian`), the function returns its argument
unchanged.  A `double` is represented by its 64-bit pattern (the claims are
about bit-pattern equality). -/

/-- Byte `i` (little-endian position) of a natural number. -/
def byteAt (i x : Nat) : Nat := x / 256 ^ i % 256

/-- Memory image of a value on a little-endian host: its `n` bytes in
address order (least significant first). -/
def toBytes : Nat → Nat → List Nat
  | 0, _ => []
  | n + 1, x => x % 256 :: toBytes n (x / 256)

/-- Value held by a little-endian memory image. -/
def ofBytes : List Nat → Nat
  | [] => 0
  | b :: t => b + 256 * ofBytes t

/-- Exchange of the two 4-byte words of an 8-byte memory image: the ARM
mixed-endian fixup block. -/
def wswap (m : List Nat) : List Nat := m.drop 4 ++ m.take 4

/-- Full 8-byte reversal: the effect of the copy loop
`pchSwapped[i] = pchOrig[8 - i - 1]` on the value. -/
def byteReverse8 (x : Nat) : Nat := ofBytes (toBytes 8 x).reverse

/-- Word swap applied to the value: the effect of the mixed-endian fixup. -/
def wordSwap8 (x : Nat) : Nat := ofBytes (wswap (toBytes 8 x))

/-- Model of `acl::CoreSocket::hton(int64_t)` (lines 1403-1436), parameterised
by the two compile-time platform facts: `bigEndian` is `ACL_big_endian`, and
`mixed` is the `__FLOAT_WORD_ORDER != __BYTE_ORDER` ARM condition guarding the
word-swap fixup (which sits inside the little-endian branch). -/
def hton_int64 (bigEndian mixed : Bool) (x : Nat) : Nat :=
  if bigEndian then x
  else if mixed then wordSwap8 (byteReverse8 x) else byteReverse8 x

/-- Model of `acl::CoreSocket::ntoh(int64_t)` (line 1439): defined as `hton`. -/
def ntoh_int64 (bigEndian mixed : Bool) (x : Nat) : Nat :=
  hton_int64 bigEndian mixed x

/-- Model of `acl::CoreSocket::hton(double)` (lines 1357-1390): the identical
byte transform applied to the 64-bit pattern of the double. -/
def hton_double (bigEndian mixed : Bool) (x : Nat) : Nat :=
  if bigEndian then x
  else if mixed then wordSwap8 (byteReverse8 x) else byteReverse8 x

/-- Model of `acl::CoreSocket::ntoh(double)` (line 1393): defined as `hton`. -/
def ntoh_double (bigEndian mixed : Bool) (x : Nat) : Nat :=
  hton_double bigEndian mixed x

lemma toBytes_length (n x : Nat) : (toBytes n x).length = n := by
  induction n generalizing x with
  | zero => rfl
  | succ n ih => simp [toBytes, ih]

lemma toBytes_mem_lt (n x : Nat) : ∀ b ∈ toBytes n x, b < 256 := by
  induction n generalizing x with
  | zero => simp [toBytes]
  | succ n ih =>
    intro b hb
    rcases List.mem_cons.mp hb with h | h
    · omega
    · exact ih _ _ h

lemma ofBytes_toBytes (n x : Nat) : ofBytes (toBytes n x) = x % 256 ^ n := by
  induction n generalizing x with
  | zero => simp [toBytes, ofBytes, Nat.mod_one]
  | succ n ih =>
    have h1 : x % (256 * 256 ^ n) % 256 = x % 256 :=
      Nat.mod_mod_of_dvd x ⟨256 ^ n, rfl⟩
    have h2 : x % (256 * 256 ^ n) / 256 = x / 256 % 256 ^ n :=
      Nat.mod_mul_right_div_self x 256 (256 ^ n)
    have h3 := Nat.div_add_mod (x % (256 * 256 ^ n)) 256
    simp only [toBytes, ofBytes, ih]
    rw [pow_succ']
    omega

lemma toBytes_ofBytes (l : List Nat) (h : ∀ b ∈ l, b < 256) :
    toBytes l.length (ofBytes l) = l := by
  induction l with
  | nil => rfl
  | cons b t ih =>
    have hb : b < 256 := h b (List.mem_cons_self b t)
    have hmod : (b + 256 * ofBytes t) % 256 = b := by omega
    have hdiv : (b + 256 * ofBytes t) / 256 = ofBytes t := by omega
    simp only [List.length_cons, toBytes, ofBytes, hmod, hdiv]
    rw [ih (fun c hc => h c (List.mem_cons_of_mem _ hc))]

lemma wswap_mem_lt (m : List Nat) (h : ∀ b ∈ m, b < 256) :
    ∀ b ∈ wswap m, b < 256 := by
  intro b hb
  rcases List.mem_append.mp hb with hd | ht
  · exact h b (List.mem_of_mem_drop hd)
  · exact h b (List.mem_of_mem_take ht)

lemma wswap_reverse_wswap_reverse (l : List Nat) (hl : l.length = 8) :
    wswap (wswap l.reverse).reverse = l := by
  rcases l with _ | ⟨a, l⟩; · simp at hl
  rcases l with _ | ⟨b, l⟩; · simp at hl
  rcases l with _ | ⟨c, l⟩; · simp at hl
  rcases l with _ | ⟨d, l⟩; · simp at hl
  rcases l with _ | ⟨e, l⟩; · simp at hl
  rcases l with _ | ⟨f, l⟩; · simp at hl
  rcases l with _ | ⟨g, l⟩; · simp at hl
  rcases l with _ | ⟨h, l⟩; · simp at hl
  rcases l with _ | ⟨i, l⟩
  · rfl
  · simp at hl

lemma toBytes8_ofBytes (l : List Nat) (hl : l.length = 8) (h : ∀ b ∈ l, b < 256) :
    toBytes 8 (ofBytes l) = l := by
  have := toBytes_ofBytes l h
  rwa [hl] at this

lemma pow256_8 : (256 : Nat) ^ 8 = 2 ^ 64 := by norm_num

lemma byteReverse8_byteReverse8 (x : Nat) (hx : x < 2 ^ 64) :
    byteReverse8 (byteReverse8 x) = x := by
  have hlen : (toBytes 8 x).reverse.length = 8 := by
    rw [List.length_reverse, toBytes_length]
  have hmem : ∀ b ∈ (toBytes 8 x).reverse, b < 256 := by
    intro b hb
    exact toBytes_mem_lt 8 x b (List.mem_reverse.mp hb)
  unfold byteReverse8
  rw [toBytes8_ofBytes _ hlen hmem, List.reverse_reverse, ofBytes_toBytes, pow256_8]
  exact Nat.mod_eq_of_lt hx

lemma wordSwap8_byteReverse8_invol (x : Nat) (hx : x < 2 ^ 64) :
    wordSwap8 (byteReverse8 (wordSwap8 (byteReverse8 x))) = x := by
  have hlen : (toBytes 8 x).reverse.length = 8 := by
    rw [List.length_reverse, toBytes_length]
  have hmem : ∀ b ∈ (toBytes 8 x).reverse, b < 256 := by
    intro b hb
    exact toBytes_mem_lt 8 x b (List.mem_reverse.mp hb)
  have hwlen : (wswap (toBytes 8 x).reverse).length = 8 := by
    simp only [wswap, List.length_append, List.length_drop, List.length_take, hlen]
    omega
  have hwmem : ∀ b ∈ wswap (toBytes 8 x).reverse, b < 256 := wswap_mem_lt _ hmem
  have hwrlen : (wswap (toBytes 8 x).reverse).reverse.length = 8 := by
    rw [List.length_reverse, hwlen]
  have hwrmem : ∀ b ∈ (wswap (toBytes 8 x).reverse).reverse, b < 256 := by
    intro b hb
    exact hwmem b (List.mem_reverse.mp hb)
  unfold wordSwap8 byteReverse8
  rw [toBytes8_ofBytes _ hlen hmem, toBytes8_ofBytes _ hwlen hwmem,
    toBytes8_ofBytes _ hwrlen hwrmem,
    wswap_reverse_wswap_reverse _ (toBytes_length 8 x), ofBytes_toBytes, pow256_8]
  exact Nat.mod_eq_of_lt hx

lemma byteAt_ofBytes (l : List Nat) (i : Nat) (h : ∀ b ∈ l, b < 256)
    (hi : i < l.length) : byteAt i (ofBytes l) = l.getD i 0 := by
  induction l generalizing i with
  | nil => simp at hi
  | cons b t ih =>
    have hb : b < 256 := h b (List.mem_cons_self b t)
    match i with
    | 0 =>
      simp only [byteAt, pow_zero, Nat.div_one, ofBytes, List.getD_cons_zero]
      omega
    | i + 1 =>
      have hdiv : (b + 256 * ofBytes t) / 256 = ofBytes t := by omega
      simp only [byteAt, ofBytes, List.getD_cons_succ, pow_succ', ← Nat.div_div_eq_div_mul,
        hdiv]
      exact ih i (fun c hc => h c (List.mem_cons_of_mem _ hc)) (by simpa using hi)

lemma toBytes_getD (n x i : Nat) (hi : i < n) :
    (toBytes n x).getD i 0 = byteAt i x := by
  induction n generalizing x i with
  | zero => omega
  | succ n ih =>
    match i with
    | 0 => simp [toBytes, byteAt]
    | i + 1 =>
      simp only [toBytes, List.getD_cons_succ]
      rw [ih (x / 256) i (by omega)]
      simp only [byteAt, pow_succ', Nat.div_div_eq_div_mul]

lemma getD_reverse8 (l : List Nat) (hl : l.length = 8) (i : Nat) (hi : i < 8) :
    l.reverse.getD i 0 = l.getD (7 - i) 0 := by
  rcases l with _ | ⟨a, l⟩; · simp at hl
  rcases l with _ | ⟨b, l⟩; · simp at hl
  rcases l with _ | ⟨c, l⟩; · simp at hl
  rcases l with _ | ⟨d, l⟩; · simp at hl
  rcases l with _ | ⟨e, l⟩; · simp at hl
  rcases l with _ | ⟨f, l⟩; · simp at hl
  rcases l with _ | ⟨g, l⟩; · simp at hl
  rcases l with _ | ⟨h, l⟩; · simp at hl
  rcases l with _ | ⟨j, l⟩
  · interval_cases i <;> rfl
  · simp at hl

/-- C9: `close_socket` on the sentinel invalid handle `BAD_SOCKET` returns the
distinguished status code `-100`, deterministically, without consulting the
OS close oracle and without crashing. -/
theorem close_socket_bad_socket (osClose : Int → Int) :
    close_socket osClose BAD_SOCKET = -100 := by
  simp [close_socket]

/-- C6: for every 64-bit value, `ntoh (hton x) = x` and `hton (ntoh x) = x`,
for both the integer and the double conversion (on the double's bit pattern),
under every combination of the big-endian/little-endian host assumption and
the mixed-endian word-swap variant. -/
theorem hton_ntoh_inverse (bigEndian mixed : Bool) (x : Nat) (hx : x < 2 ^ 64) :
    ntoh_int64 bigEndian mixed (hton_int64 bigEndian mixed x) = x ∧
    hton_int64 bigEndian mixed (ntoh_int64 bigEndian mixed x) = x ∧
    ntoh_double bigEndian mixed (hton_double bigEndian mixed x) = x ∧
    hton_double bigEndian mixed (ntoh_double bigEndian mixed x) = x := by
  cases bigEndian <;> cases mixed <;>
    simp [hton_int64, ntoh_int64, hton_double, ntoh_double,
      byteReverse8_byteReverse8 x hx, wordSwap8_byteReverse8_invol x hx]

theorem hton_ntoh_inverse_witness :
    ntoh_int64 false true (hton_int64 false true 81985529216486895) =
      81985529216486895 :=
  (hton_ntoh_inverse false true 81985529216486895 (by norm_num)).1

/-- C7: on a little-endian host without the mixed-endian quirk, `hton` maps an
int64 (and the bit pattern of a double) to the full reversal of its 8 bytes,
and on a big-endian host `hton` is the identity on both types. -/
theorem hton_little_endian_reverses (x i : Nat) (hi : i < 8) :
    byteAt i (hton_int64 false false x) = byteAt (7 - i) x ∧
    byteAt i (hton_double false false x) = byteAt (7 - i) x ∧
    (∀ m : Bool, hton_int64 true m x = x) ∧
    (∀ m : Bool, hton_double true m x = x) := by
  have key : byteAt i (byteReverse8 x) = byteAt (7 - i) x := by
    unfold byteReverse8
    rw [byteAt_ofBytes _ i (fun b hb => toBytes_mem_lt 8 x b (List.mem_reverse.mp hb))
        (by rw [List.length_reverse, toBytes_length]; exact hi),
      getD_reverse8 _ (toBytes_length 8 x) i hi, toBytes_getD 8 x (7 - i) (by omega)]
  refine ⟨?_, ?_, ?_, ?_⟩ <;> simp [hton_int64, hton_double, key]

theorem hton_little_endian_reverses_witness :
    byteAt 2 (hton_int64 false false 81985529216486895) =
      byteAt (7 - 2) 81985529216486895 :=
  (hton_little_endian_reverses 81985529216486895 2 (by norm_num)).1

/-! ### Option configurator (`set_tcp_socket_options`, CoreSocket.cpp 793-866)

The function is modelled on the POSIX/Linux branch (with `TCP_KEEPIDLE`
available and `TCP_USER_TIMEOUT` compiled in).  Every OS interaction is one
`setsockopt` call (or the `getprotobyname` lookup); their success/failure is
supplied by the `OptEnv` oracle.  The model returns the final `ret` value
together with the ordered list of OS attempts made, each paired with its
outcome, so that skipping and best-effort continuation are observable. -/

/-- TCPOptions struct fields used by `set_tcp_socket_options` (declared in
CoreSocket.hpp; usage visible at lines 800-862). -/
structure TCPOptions where
  keepCount : Int
  keepIdle : Int
  keepInterval : Int
  userTimeout : Int
  keepAlive : Bool
  ignoreSIGPIPE : Bool

/-- Identifier for each OS call `set_tcp_socket_options` can attempt. -/
inductive OptField
  | keepCnt | keepIdl | keepIntvl | userTO | keepAlv | protoLookup | noDelay | sigPipe
deriving DecidableEq, Repr

/-- Oracle: success of each possible OS call for the given handle. -/
structure OptEnv where
  keepCntOk : Bool
  keepIdlOk : Bool
  keepIntvlOk : Bool
  userTOOk : Bool
  keepAlvOk : Bool
  protoOk : Bool
  noDelayOk : Bool

/-- Model of `set_tcp_socket_options` (lines 793-866): each enumerated field is
applied independently in source order; a negative `keepCount`/`keepIdle`/
`keepInterval` is skipped; `userTimeout` is always applied; `keepAlive = true`
additionally triggers `SO_KEEPALIVE` and then a `getprotobyname("TCP")` lookup
followed (on lookup success) by `TCP_NODELAY`; `ignoreSIGPIPE` installs the
`SIG_IGN` handler, whose result is not checked.  `ret` starts true and each
failed attempt conjoins false onto it, exactly as the source's
`ret = false` assignments do; `att` accumulates the OS calls attempted, in
order, with their outcomes. -/
def set_tcp_socket_options (env : OptEnv) (o : TCPOptions) :
    Bool × List (OptField × Bool) :=
  let ret0 := true
  let ret1 := if 0 ≤ o.keepCount then ret0 && env.keepCntOk else ret0
  let att1 := if 0 ≤ o.keepCount then [(OptField.keepCnt, env.keepCntOk)] else []
  let ret2 := if 0 ≤ o.keepIdle then ret1 && env.keepIdlOk else ret1
  let att2 := att1 ++ (if 0 ≤ o.keepIdle then [(OptField.keepIdl, env.keepIdlOk)] else [])
  let ret3 := if 0 ≤ o.keepInterval then ret2 && env.keepIntvlOk else ret2
  let att3 := att2 ++
    (if 0 ≤ o.keepInterval then [(OptField.keepIntvl, env.keepIntvlOk)] else [])
  let ret4 := ret3 && env.userTOOk
  let att4 := att3 ++ [(OptField.userTO, env.userTOOk)]
  let ret5 := if o.keepAlive then ret4 && env.keepAlvOk else ret4
  let att5 := att4 ++ (if o.keepAlive then [(OptField.keepAlv, env.keepAlvOk)] else [])
  let ret6 :=
    if o.keepAlive then
      if env.protoOk then ret5 && env.noDelayOk else ret5 && false
    else ret5
  let att6 := att5 ++
    (if o.keepAlive then
      (if env.protoOk then [(OptField.protoLookup, true), (OptField.noDelay, env.noDelayOk)]
       else [(OptField.protoLookup, false)])
     else [])
  let att7 := att6 ++ (if o.ignoreSIGPIPE then [(OptField.sigPipe, true)] else [])
  (ret6, att7)

/-- Attempt list predicted from the option values alone (plus the one OS fact
`protoOk`, which gates only the `TCP_NODELAY` sub-step, not any enumerated
field). -/
def predictedAttempts (o : TCPOptions) (protoOk : Bool) : List OptField :=
  (if 0 ≤ o.keepCount then [OptField.keepCnt] else []) ++
  (if 0 ≤ o.keepIdle then [OptField.keepIdl] else []) ++
  (if 0 ≤ o.keepInterval then [OptField.keepIntvl] else []) ++
  [OptField.userTO] ++
  (if o.keepAlive then
    OptField.keepAlv :: (if protoOk then [OptField.protoLookup, OptField.noDelay]
      else [OptField.protoLookup]) else []) ++
  (if o.ignoreSIGPIPE then [OptField.sigPipe] else [])

/-- C8: `set_tcp_socket_options` skips each of keepCount/keepIdle/keepInterval
exactly when its value is negative; which fields are attempted is determined by
the option values alone (never cut short by an earlier field failing; only the
`TCP_NODELAY` sub-step is gated, by the protocol lookup); and the returned
flag is true iff every attempted OS call succeeded. -/
theorem set_tcp_socket_options_spec (env : OptEnv) (o : TCPOptions) :
    ((set_tcp_socket_options env o).2.map Prod.fst = predictedAttempts o env.protoOk) ∧
    (o.keepCount < 0 → OptField.keepCnt ∉ (set_tcp_socket_options env o).2.map Prod.fst) ∧
    (o.keepIdle < 0 → OptField.keepIdl ∉ (set_tcp_socket_options env o).2.map Prod.fst) ∧
    (o.keepInterval < 0 →
      OptField.keepIntvl ∉ (set_tcp_socket_options env o).2.map Prod.fst) ∧
    ((set_tcp_socket_options env o).1 = (set_tcp_socket_options env o).2.all Prod.snd) := by
  by_cases h1 : 0 ≤ o.keepCount <;> by_cases h2 : 0 ≤ o.keepIdle <;>
    by_cases h3 : 0 ≤ o.keepInterval <;> cases hka : o.keepAlive <;>
    cases hsp : o.ignoreSIGPIPE <;> cases hpo : env.protoOk <;>
    simp [set_tcp_socket_options, predictedAttempts, h1, h2, h3, hka, hsp, hpo,
      Bool.and_assoc]

theorem set_tcp_socket_options_spec_witness :
    OptField.keepIdl ∉
      (set_tcp_socket_options ⟨true, true, true, true, true, true, true⟩
        ⟨3, -1, 7, 5, true, false⟩).2.map Prod.fst :=
  (set_tcp_socket_options_spec ⟨true, true, true, true, true, true, true⟩
    ⟨3, -1, 7, 5, true, false⟩).2.2.1 (by norm_num)

/-- C10: with `keepAlive = true` the configurator additionally attempts the
protocol lookup and (when the lookup succeeds) `TCP_NODELAY`, and a failure of
either makes the overall result false. -/
theorem set_tcp_socket_options_nodelay (env : OptEnv) (o : TCPOptions)
    (hka : o.keepAlive = true) :
    (OptField.protoLookup ∈ (set_tcp_socket_options env o).2.map Prod.fst) ∧
    (env.protoOk = true →
      (OptField.noDelay, env.noDelayOk) ∈ (set_tcp_socket_options env o).2) ∧
    (env.protoOk = false → (set_tcp_socket_options env o).1 = false) ∧
    (env.noDelayOk = false → (set_tcp_socket_options env o).1 = false) := by
  by_cases h1 : 0 ≤ o.keepCount <;> by_cases h2 : 0 ≤ o.keepIdle <;>
    by_cases h3 : 0 ≤ o.keepInterval <;> cases hsp : o.ignoreSIGPIPE <;>
    cases hpo : env.protoOk <;> cases hnd : env.noDelayOk <;>
    simp [set_tcp_socket_options, h1, h2, h3, hka, hsp, hpo, hnd]

theorem set_tcp_socket_options_nodelay_witness :
    (set_tcp_socket_options ⟨true, true, true, true, true, true, false⟩
      ⟨3, 4, 7, 5, true, false⟩).1 = false :=
  (set_tcp_socket_options_nodelay ⟨true, true, true, true, true, true, false⟩
    ⟨3, 4, 7, 5, true, false⟩ rfl).2.2.2 rfl

/-! ### Interrupt-safe blocking read (`noint_block_read`, CoreSocket.cpp 501-530)

The OS `read`/`recv` calls are modelled by a trace of events consumed one per
loop iteration: a successful read of `n` bytes (the OS contract guarantees
`n` never exceeds the requested `length - sofar`; a trace violating that is
rejected as `none`), an `EINTR`-interrupted call, or a hard error.  A trace
too short to let the loop finish also yields `none` (the real loop would
keep issuing reads). -/

/-- Outcome of one OS-level `read`/`recv` call. -/
inductive ReadEv
  | ok (n : Nat)
  | intr
  | err
deriving DecidableEq, Repr

/-- The `do`/`while` loop of `noint_block_read`, entered with `sofar`
accumulated: one event per iteration, looping while `ret > 0 ∧ sofar < length`;
afterwards `ret = -1` and `ret = 0` (EOF) both report `-1`, otherwise the
accumulated count is returned. -/
def read_loop : List ReadEv → Nat → Nat → Option Int
  | [], _, _ => none
  | ReadEv.ok n :: rest, sofar, len =>
    if len - sofar < n then none
    else if 0 < n ∧ sofar + n < len then read_loop rest (sofar + n) len
    else if n = 0 then some (-1)
    else some ((sofar + n : Nat) : Int)
  | ReadEv.intr :: rest, sofar, len =>
    if sofar < len then read_loop rest sofar len else some ((sofar : Nat) : Int)
  | ReadEv.err :: _, _, _ => some (-1)

/-- Model of `noint_block_read` (lines 501-530): a zero-length request returns
0 before any OS call; otherwise the retry loop runs from `sofar = 0`. -/
def noint_block_read (trace : List ReadEv) (len : Nat) : Option Int :=
  if len = 0 then some 0 else read_loop trace 0 len

lemma read_loop_result (trace : List ReadEv) (sofar len : Nat) (r : Int)
    (hs : sofar < len) (h : read_loop trace sofar len = some r) :
    r = -1 ∨ r = (len : Int) := by
  induction trace generalizing sofar with
  | nil => simp [read_loop] at h
  | cons ev rest ih =>
    cases ev with
    | ok n =>
      by_cases hval : len - sofar < n
      · simp [read_loop, hval] at h
      · by_cases hloop : 0 < n ∧ sofar + n < len
        · rw [read_loop, if_neg hval, if_pos hloop] at h
          exact ih (sofar + n) hloop.2 h
        · by_cases hz : n = 0
          · rw [read_loop, if_neg hval, if_neg hloop, if_pos hz] at h
            injection h with h
            left
            omega
          · rw [read_loop, if_neg hval, if_neg hloop, if_neg hz] at h
            injection h with h
            right
            have hnl : sofar + n = len := by omega
            omega
    | intr =>
      rw [read_loop, if_pos hs] at h
      exact ih sofar hs h
    | err =>
      left
      simp [read_loop] at h
      omega

/-- C4: for `length > 0` the result of `noint_block_read` is either `-1`
(hard error or end-of-stream) or exactly `length` — never a positive short
count; and a `length = 0` request returns 0 with no OS read performed (the
empty trace already suffices). -/
theorem noint_block_read_spec :
    (∀ trace len r, 0 < len → noint_block_read trace len = some r →
      r = -1 ∨ r = (len : Int)) ∧
    (∀ trace, noint_block_read trace 0 = some 0) ∧
    noint_block_read [] 0 = some 0 := by
  refine ⟨fun trace len r hlen h => ?_, fun trace => ?_, ?_⟩
  · rw [noint_block_read, if_neg (by omega)] at h
    exact read_loop_result trace 0 len r hlen h
  · simp [noint_block_read]
  · simp [noint_block_read]

theorem noint_block_read_spec_witness :
    0 < 4 ∧
      noint_block_read [ReadEv.ok 2, ReadEv.intr, ReadEv.ok 2] 4 = some 4 ∧
      ((4 : Int) = -1 ∨ (4 : Int) = ((4 : Nat) : Int)) :=
  ⟨by norm_num, by decide,
    noint_block_read_spec.1 [ReadEv.ok 2, ReadEv.intr, ReadEv.ok 2] 4 4
      (by norm_num) (by decide)⟩

/-! ### Deadline-bounded read (`noint_block_read_timeout`, CoreSocket.cpp 591-680)

Time is modelled as absolute microseconds (`Nat`); the external `Timer.h`
helpers are the spec-described timeval arithmetic: `TimevalSum` is addition,
`TimevalDiff stop now` is truncated subtraction (used only when
`now ≤ stop`), and `TimevalGreater` is strict comparison.  `to`, the seconds
value handed to `check_ready_to_read_timeout`, is compared against zero only;
for non-negative timevals `tv_sec + tv_usec * 1e-6 == 0` holds exactly when
both fields are zero, i.e. when the microsecond count is zero.

Each loop iteration consumes one `IterEv` from the trace: the readiness-poll
outcome, the `ACL_gettimeofday` sample taken in the deadline-tracking block,
the (otherwise meaningless) outcome of comparing that sample against the
UNINITIALIZED `stop` variable — reachable when the caller passes a non-null
zero timeout, since then `timeout2ptr` is non-null but `stop` is never set —
and the `recv` outcome used when the poll reported readiness. -/

/-- Result of one `check_ready_to_read_timeout` call: `-1`, `0` or `1`. -/
inductive PollRes
  | perr
  | notReady
  | ready
deriving DecidableEq, Repr

/-- Outcome of one `recv` call inside the deadline loop (`none` = `-1`). -/
inductive RecvEv
  | ok (n : Nat)
  | err
deriving DecidableEq, Repr

/-- OS events consumed by one iteration of the deadline-read loop. -/
structure IterEv where
  poll : PollRes
  now : Nat
  uninitGt : Bool
  recv : RecvEv
deriving DecidableEq, Repr

/-- Timeout-tracking state of the loop: `unlimited` models a NULL `timeout`
pointer (`to` becomes `LONG_MAX` seconds), `zeroTO` a non-null zero timeout
(`timeout2ptr` aliases the caller's zero timeval, which is never updated), and
`track stop rem` a non-null non-zero timeout (`stop` is the absolute deadline,
`rem` the current `timeout2` value that `to` is read from). -/
inductive TK
  | unlimited
  | zeroTO
  | track (stop : Nat) (rem : Nat)
deriving DecidableEq, Repr

/-- Microseconds represented by `to` at the top of an iteration
(`LONG_MAX` seconds for a NULL timeout pointer). -/
def toMicros : TK → Nat
  | TK.unlimited => 9223372036854775807 * 1000000
  | TK.zeroTO => 0
  | TK.track _ rem => rem

/-- The deadline-tracking block (`if (timeout2ptr) { gettimeofday(&now); ... }`,
lines 643-650): `none` means `TimevalGreater(now, stop)` held and the call
returns `sofar`; otherwise `timeout2` is recomputed as `TimevalDiff(stop, now)`.
With a zero timeout the comparison reads the uninitialized `stop`, modelled by
the event's `uninitGt` flag, and the recomputed `timeout2` is not the timeval
`to` is read from, so the state is unchanged. -/
def afterClock (ev : IterEv) : TK → Option TK
  | TK.unlimited => some TK.unlimited
  | TK.zeroTO => if ev.uninitGt then none else some TK.zeroTO
  | TK.track stop _ =>
    if stop < ev.now then none else some (TK.track stop (stop - ev.now))

/-- The main loop of `noint_block_read_timeout` (lines 626-679), POSIX branch:
poll; fail on poll error; return `sofar` on a zero-duration timeout expiry;
re-check the absolute deadline; re-poll when not ready; otherwise `recv` once,
treat a zero-byte read as a hard `-1`, accumulate and continue while
`ret > 0 ∧ sofar < length`. -/
def nbrt_loop : List IterEv → TK → Nat → Nat → Option Int
  | [], _, _, _ => none
  | ev :: rest, tk, sofar, len =>
    match ev.poll with
    | PollRes.perr => some (-1)
    | PollRes.notReady =>
      if toMicros tk = 0 then some ((sofar : Nat) : Int)
      else
        match afterClock ev tk with
        | none => some ((sofar : Nat) : Int)
        | some tk1 => nbrt_loop rest tk1 sofar len
    | PollRes.ready =>
      match afterClock ev tk with
      | none => some ((sofar : Nat) : Int)
      | some tk1 =>
        match ev.recv with
        | RecvEv.err => some (-1)
        | RecvEv.ok 0 => some (-1)
        | RecvEv.ok (n + 1) =>
          if len - sofar < n + 1 then none
          else if sofar + (n + 1) < len then nbrt_loop rest tk1 (sofar + (n + 1)) len
          else some ((sofar + (n + 1) : Nat) : Int)

/-- Initial tracking state (lines 610-623): a NULL timeout gives `unlimited`;
a zero timeout leaves `timeout2ptr` aliasing the zero timeval; a non-zero
timeout records `stop = TimevalSum(start, *timeout)` and `timeout2 = *timeout`. -/
def initTK (startNow : Nat) : Option Nat → TK
  | none => TK.unlimited
  | some t => if t = 0 then TK.zeroTO else TK.track (startNow + t) t

/-- Model of `noint_block_read_timeout` (lines 591-680): reject the sentinel
handle, return 0 for a zero-length request before any OS call, then run the
loop.  `startNow` is the `ACL_gettimeofday` start sample, `timeout` the
caller's timeval in microseconds (`none` = NULL pointer). -/
def noint_block_read_timeout (sock : Int) (events : List IterEv) (startNow : Nat)
    (timeout : Option Nat) (len : Nat) : Option Int :=
  if sock = BAD_SOCKET then some (-1)
  else if len = 0 then some 0
  else nbrt_loop events (initTK startNow timeout) 0 len

/-- C5: with a valid handle and a zero-duration (already-expired) deadline, if
the single non-blocking poll reports nothing readable, the call returns `0`
(bytes accumulated so far), not an error — and it consumes only that first
poll event (any remaining trace is irrelevant), whose poll duration `to` is
zero, i.e. the poll cannot block. -/
theorem noint_block_read_timeout_expired_returns_zero (sock : Int) (startNow len : Nat)
    (ev : IterEv) (rest : List IterEv) (hs : sock ≠ BAD_SOCKET)
    (hp : ev.poll = PollRes.notReady) :
    noint_block_read_timeout sock (ev :: rest) startNow (some 0) len = some 0 ∧
    toMicros (initTK startNow (some 0)) = 0 := by
  refine ⟨?_, rfl⟩
  rw [noint_block_read_timeout, if_neg hs]
  by_cases hl : len = 0
  · rw [if_pos hl]
  · rw [if_neg hl]
    show nbrt_loop (ev :: rest) TK.zeroTO 0 len = some 0
    rw [nbrt_loop, hp]
    rfl

theorem noint_block_read_timeout_expired_returns_zero_witness :
    noint_block_read_timeout 3 [⟨PollRes.notReady, 17, true, RecvEv.ok 9⟩] 5
      (some 0) 10 = some 0 :=
  (noint_block_read_timeout_expired_returns_zero 3 5 10
    ⟨PollRes.notReady, 17, true, RecvEv.ok 9⟩ [] (by decide) rfl).1

/-- Mirror of `nbrt_loop`'s control flow that is true exactly when the run
reaches an iteration in which the poll reported readiness, the deadline check
passed, and the subsequent `recv` returned zero bytes. -/
def reachesZeroRead : List IterEv → TK → Nat → Nat → Bool
  | [], _, _, _ => false
  | ev :: rest, tk, sofar, len =>
    match ev.poll with
    | PollRes.perr => false
    | PollRes.notReady =>
      if toMicros tk = 0 then false
      else
        match afterClock ev tk with
        | none => false
        | some tk1 => reachesZeroRead rest tk1 sofar len
    | PollRes.ready =>
      match afterClock ev tk with
      | none => false
      | some tk1 =>
        match ev.recv with
        | RecvEv.err => false
        | RecvEv.ok 0 => true
        | RecvEv.ok (n + 1) =>
          if len - sofar < n + 1 then false
          else if sofar + (n + 1) < len then reachesZeroRead rest tk1 (sofar + (n + 1)) len
          else false

lemma nbrt_loop_zero_read (events : List IterEv) (tk : TK) (sofar len : Nat)
    (h : reachesZeroRead events tk sofar len = true) :
    nbrt_loop events tk sofar len = some (-1) := by
  induction events generalizing tk sofar with
  | nil => simp [reachesZeroRead] at h
  | cons ev rest ih =>
    obtain ⟨pl, now, ug, rv⟩ := ev
    cases pl with
    | perr => simp [reachesZeroRead] at h
    | notReady =>
      simp only [reachesZeroRead] at h
      simp only [nbrt_loop]
      by_cases hz : toMicros tk = 0
      · simp [hz] at h
      · rw [if_neg hz] at h ⊢
        cases hc : afterClock ⟨PollRes.notReady, now, ug, rv⟩ tk with
        | none => rw [hc] at h; simp at h
        | some tk1 =>
          rw [hc] at h
          exact ih tk1 sofar h
    | ready =>
      simp only [reachesZeroRead] at h
      simp only [nbrt_loop]
      cases hc : afterClock ⟨PollRes.ready, now, ug, rv⟩ tk with
      | none => rw [hc] at h; simp at h
      | some tk1 =>
        rw [hc] at h
        cases rv with
        | err => simp at h
        | ok n =>
          match n with
          | 0 => rfl
          | n + 1 =>
            replace h : (if len - sofar < n + 1 then false
              else if sofar + (n + 1) < len then reachesZeroRead rest tk1 (sofar + (n + 1)) len
              else false) = true := h
            show (if len - sofar < n + 1 then none
              else if sofar + (n + 1) < len then nbrt_loop rest tk1 (sofar + (n + 1)) len
              else some ((sofar + (n + 1) : Nat) : Int)) = some (-1)
            by_cases hval : len - sofar < n + 1
            · rw [if_pos hval] at h
              simp at h
            · rw [if_neg hval] at h ⊢
              by_cases hcont : sofar + (n + 1) < len
              · rw [if_pos hcont] at h ⊢
                exact ih tk1 (sofar + (n + 1)) h
              · rw [if_neg hcont] at h
                simp at h

/-- C2: whenever a run of the deadline-bounded read reaches an iteration in
which an OS-level read performed after a positive readiness poll returns zero
bytes, the call returns `-1` (hard error) rather than looping for another
timeout iteration, regardless of how many bytes were accumulated before. -/
theorem noint_block_read_timeout_zero_read_fails (sock : Int) (events : List IterEv)
    (startNow : Nat) (timeout : Option Nat) (len : Nat) (hs : sock ≠ BAD_SOCKET)
    (hl : len ≠ 0)
    (hr : reachesZeroRead events (initTK startNow timeout) 0 len = true) :
    noint_block_read_timeout sock events startNow timeout len = some (-1) := by
  rw [noint_block_read_timeout, if_neg hs, if_neg hl]
  exact nbrt_loop_zero_read events (initTK startNow timeout) 0 len hr

theorem noint_block_read_timeout_zero_read_fails_witness :
    noint_block_read_timeout 7 [⟨PollRes.ready, 0, false, RecvEv.ok 0⟩]
      0 none 3 = some (-1) :=
  noint_block_read_timeout_zero_read_fails 7 [⟨PollRes.ready, 0, false, RecvEv.ok 0⟩]
    0 none 3 (by decide) (by decide) (by decide)

/-- C1 counterexample: a deadline-bounded read that has already accumulated
`K = 2 > 0` bytes and then observes a readable poll followed by a zero-byte
OS read returns `-1`, not `K = 2`: the trace below accumulates 2 of the 5
requested bytes in the first iteration and hits end-of-stream in the second. -/
theorem noint_block_read_timeout_eof_counterexample :
    noint_block_read_timeout 3
      [⟨PollRes.ready, 5, false, RecvEv.ok 2⟩, ⟨PollRes.ready, 6, false, RecvEv.ok 0⟩]
      0 (some 1000000) 5 = some (-1) ∧
    (some (-1) : Option Int) ≠ some 2 := by
  constructor
  · decide
  · decide

/-- C1 amended: in the iteration in which the poll reports readable, the
deadline check passes, and the OS read then returns zero bytes, the
deadline-bounded read loop returns `-1` (hard error) even though `K > 0`
bytes were already accumulated — it does not return `K`. -/
theorem nbrt_loop_eof_hard_error (rest : List IterEv) (ev : IterEv)
    (tk tk1 : TK) (sofar len : Nat) (hK : 0 < sofar) (hp : ev.poll = PollRes.ready)
    (hc : afterClock ev tk = some tk1) (hr : ev.recv = RecvEv.ok 0) :
    nbrt_loop (ev :: rest) tk sofar len = some (-1) := by
  rw [nbrt_loop, hp, hc, hr]

theorem nbrt_loop_eof_hard_error_witness :
    nbrt_loop [⟨PollRes.ready, 0, false, RecvEv.ok 0⟩] TK.unlimited 2 5 = some (-1) :=
  nbrt_loop_eof_hard_error [] ⟨PollRes.ready, 0, false, RecvEv.ok 0⟩
    TK.unlimited TK.unlimited 2 5 (by norm_num) rfl rfl rfl

/-! ### TCP connect (`connect_tcp_to`, CoreSocket.cpp 1104-1201)

The OS interactions are abstracted by a `ConnEnv` oracle: the handle returned
by `open_tcp_socket`, the result of `set_tcp_socket_options`, whether the
address resolved (`inet_addr` returning a valid address, or `gethostbyname`
returning non-NULL), and whether `connect` succeeded.  The model reports,
besides success, the list of handles the call closed (via `close_socket` or
`closeSocket`) and the final value left in `*s`, so resource release on each
failure branch is observable. -/

/-- Oracle for the OS calls made by `connect_tcp_to`. -/
structure ConnEnv where
  openRes : Int
  optsOk : Bool
  resolveOk : Bool
  connectOk : Bool

/-- Observable outcome of a `connect_tcp_to` call. -/
structure ConnOut where
  success : Bool
  closed : List Int
  sOut : Option Int
deriving DecidableEq, Repr

/-- Model of `connect_tcp_to` (lines 1104-1201), following the source's branch
order: null out-pointer check; `open_tcp_socket` with failure when the result
is negative; option application (on failure: `close_socket(*s)` and
`*s = BAD_SOCKET`); host resolution (on failure: return false — the source
closes nothing on this branch); `connect` (on failure: `closeSocket(*s)`). -/
def connect_tcp_to (env : ConnEnv) (sNull : Bool) (hasOptions : Bool) : ConnOut :=
  if sNull then ⟨false, [], none⟩
  else
    let s := env.openRes
    if s < 0 then ⟨false, [], some s⟩
    else if hasOptions && !env.optsOk then ⟨false, [s], some BAD_SOCKET⟩
    else if !env.resolveOk then ⟨false, [], some s⟩
    else if !env.connectOk then ⟨false, [s], some s⟩
    else ⟨true, [], some s⟩

/-- C3 (code_bug evidence): with `addr` failing resolution after the socket
was successfully opened (handle 3), `connect_tcp_to` returns false with the
opened handle still in `*s` and NOT in the list of closed handles — the
host-resolution failure branch leaks the socket, unlike the option-failure
and connect-failure branches, which do close it. -/
theorem connect_tcp_to_resolution_leak :
    (connect_tcp_to ⟨3, true, false, true⟩ false true).success = false ∧
    (connect_tcp_to ⟨3, true, false, true⟩ false true).closed = [] ∧
    (connect_tcp_to ⟨3, true, false, true⟩ false true).sOut = some 3 ∧
    (connect_tcp_to ⟨3, false, true, true⟩ false true).closed = [3] ∧
    (connect_tcp_to ⟨3, true, true, false⟩ false true).closed = [3] := by
  refine ⟨?_, ?_, ?_, ?_, ?_⟩ <;> decide

end CoreSocket
